import Mathlib

/-!
Shallow embedding of `src/script.ts` (exceltodb): an Excel extractor
(`readExcelFile` with the helper `isValidChannelFormat`), a database
upsert loop (`uploadData` over a Prisma table modelled as a list of
rows), a reporter (`fetchData`) and the orchestrating `main`.

Machine numbers from JavaScript are modelled by `JSNum` (NaN, the two
infinities, or a rational); the external builtins `parseFloat`/`parseInt`
are abstract parameters of the extraction functions, so every theorem
below holds for an arbitrary implementation of them.  Console output is
modelled as a list of `LogMsg` values; a thrown-and-caught exception is
modelled by the corresponding `catch` branch being taken, and "does not
throw" by the embedded function being total.
-/

set_option autoImplicit false

namespace ExcelToDb

/-- JavaScript `number` values as far as this program observes them:
NaN, the infinities, and finite values (modelled as rationals). -/
inductive JSNum where
  | nan : JSNum
  | posInf : JSNum
  | negInf : JSNum
  | num : ℚ → JSNum
deriving DecidableEq

/-- The global `isNaN` applied to a number (no coercion is needed since the
argument of the check at line 50 is already a number). -/
def jsIsNaN : JSNum → Bool
  | JSNum.nan => true
  | _ => false

/-- `Number.isNaN` on a number: true exactly on NaN. -/
def jsNumberIsNaN : JSNum → Bool
  | JSNum.nan => true
  | _ => false

/-- `Number.isInteger`: true exactly on finite values with denominator 1. -/
def jsNumberIsInteger : JSNum → Bool
  | JSNum.num q => q.den == 1
  | _ => false

/-- The frequency acceptance condition of line 50 of the source:
`!isNaN(frequency) && (Number.isInteger(frequency) || !Number.isNaN(frequency))`. -/
def freqCheck (f : JSNum) : Bool :=
  !(jsIsNaN f) && (jsNumberIsInteger f || !(jsNumberIsNaN f))

/-- `Number(input.charAt(i))` is NaN: a one-character string parses as a
number exactly when the character is a digit (a space parses as 0, but
the source tests for a space separately before this check). -/
def charNumberIsNaN (c : Char) : Bool := !(c.isDigit)

/-- The character-scan loop of `isValidChannelFormat` (source lines 76-88):
walk the characters left to right carrying the `foundAleph` flag; both
branches that fire after the marker return `false`, and falling off the
end also returns `false`. -/
def isValidAux : List Char → Bool → Bool
  | [], _ => false
  | c :: rest, foundAleph =>
    if c == 'א' then
      isValidAux rest true
    else if foundAleph then
      if c == ' ' || !(charNumberIsNaN c) then
        false
      else
        false
    else
      isValidAux rest foundAleph

/-- `isValidChannelFormat` (source lines 74-89).  JavaScript `charAt`
indexes UTF-16 code units; every character this program handles (the
marker `א` included) is a single code unit, so the character list of the
string is a faithful model. -/
def isValidChannelFormat (input : String) : Bool :=
  isValidAux input.data false

/-- `channelCellValue.startsWith('א')` of source line 34. -/
def startsWithAleph (s : String) : Bool :=
  match s.data with
  | [] => false
  | c :: _ => c == 'א'

/-- `channelCellValue.indexOf('א') !== -1` of source line 34. -/
def containsAleph (s : String) : Bool := s.data.contains 'א'

/-- The characters after the first `א`, i.e. the argument
`channelCellValue.substring(indexOfAlef + 1)` of `parseInt` at line 42. -/
def afterAleph (s : String) : List Char :=
  ((s.data).dropWhile (fun c => c ≠ 'א')).drop 1

/-- A parsed record (`ExcelDataRow` of the source; the Prisma table rows
have the same two fields). -/
structure ExcelDataRow where
  channel : Int
  frequency : JSNum
deriving DecidableEq

/-- Everything the program writes to the console, one constructor per
`console.error`/`console.log` site. -/
inductive LogMsg where
  | invalidChannel : Nat → LogMsg
  | emptyFrequency : Nat → LogMsg
  | invalidFrequency : Nat → LogMsg
  | worksheetUndefined : LogMsg
  | readFileError : LogMsg
  | dataUploaded : LogMsg
  | uploadError : LogMsg
  | fetchedData : LogMsg
  | fetchError : LogMsg
  | programCompleted : LogMsg
  | mainError : LogMsg
deriving DecidableEq

/-- The row number a row-level error message refers to, if any. -/
def logRowNumber : LogMsg → Option Nat
  | LogMsg.invalidChannel n => some n
  | LogMsg.emptyFrequency n => some n
  | LogMsg.invalidFrequency n => some n
  | _ => none

/-- The `type` of the frequency cell: `ExcelJS.ValueType.Null` or anything
else (source line 46). -/
inductive CellType where
  | null : CellType
  | nonNull : CellType
deriving DecidableEq

/-- The value of the channel cell: a string, or any non-string value
(the `typeof channelCellValue !== 'string'` test of line 34). -/
inductive CellValue where
  | str : String → CellValue
  | nonString : CellValue
deriving DecidableEq

/-- The frequency cell: its ExcelJS `type` and its `text` rendering. -/
structure FreqCell where
  ctype : CellType
  text : String
deriving DecidableEq

/-- One worksheet row as the extractor reads it: cell 1 and cell 2. -/
structure SheetRow where
  cell1 : CellValue
  cell2 : FreqCell
deriving DecidableEq

/-- The body of the `eachRow` callback (source lines 29-63) for one row.
`pf` models the JavaScript builtin `parseFloat`, `pi` models `parseInt`
on the characters after the marker.  Returns the record pushed (if any)
and the console messages emitted for this row. -/
def processRow (pf : String → JSNum) (pi : List Char → Int)
    (row : SheetRow) (rowNumber : Nat) : Option ExcelDataRow × List LogMsg :=
  match row.cell1 with
  | CellValue.nonString => (none, [LogMsg.invalidChannel rowNumber])
  | CellValue.str s =>
    if !(startsWithAleph s) || !(containsAleph s) || !(isValidChannelFormat s) then
      (none, [LogMsg.invalidChannel rowNumber])
    else
      let channel : Int := pi (afterAleph s)
      match row.cell2.ctype with
      | CellType.nonNull =>
        let frequency := pf row.cell2.text
        if freqCheck frequency then
          (some { channel := channel, frequency := frequency }, [])
        else
          (none, [LogMsg.invalidFrequency rowNumber])
      | CellType.null => (none, [LogMsg.emptyFrequency rowNumber])

/-- The `eachRow` loop: rows are visited in order and numbered from 1
(`rowNumber` is the 1-based sheet row number). -/
def extractGo (pf : String → JSNum) (pi : List Char → Int) :
    List SheetRow → Nat → List ExcelDataRow × List LogMsg
  | [], _ => ([], [])
  | row :: rest, n =>
    let head := processRow pf pi row n
    let tail := extractGo pf pi rest (n + 1)
    ((match head.1 with
      | some r => r :: tail.1
      | none => tail.1), head.2 ++ tail.2)

/-- All rows of the first worksheet, numbered from 1. -/
def extractRows (pf : String → JSNum) (pi : List Char → Int)
    (rows : List SheetRow) : List ExcelDataRow × List LogMsg :=
  extractGo pf pi rows 1

/-- The outcome of `workbook.xlsx.readFile` + `getWorksheet(1)`:
the read throws, or it yields a workbook whose first worksheet is
absent or present. -/
inductive WorkbookResult where
  | readFailed : WorkbookResult
  | ok : Option (List SheetRow) → WorkbookResult

/-- `readExcelFile` (source lines 10-71): the extracted records and the
console output.  The `catch` of lines 67-70 is the `readFailed` branch;
the function is total, i.e. it never rethrows to its caller. -/
def readExcelFile (pf : String → JSNum) (pi : List Char → Int)
    (wb : WorkbookResult) : List ExcelDataRow × List LogMsg :=
  match wb with
  | WorkbookResult.readFailed => ([], [LogMsg.readFileError])
  | WorkbookResult.ok none => ([], [LogMsg.worksheetUndefined])
  | WorkbookResult.ok (some rows) => extractRows pf pi rows

/-! ## The store and `uploadData`

The Prisma `excelData` table is modelled as a `List ExcelDataRow` in
store order; `create` appends at the end. -/

/-- The store operations `uploadData` issues, recorded as a trace. -/
inductive StoreOp where
  | find : Int → StoreOp
  | update : Int → JSNum → StoreOp
  | create : Int → JSNum → StoreOp
deriving DecidableEq

/-- Prisma `update({ where: { channel }, data: { frequency } })`:
overwrite the frequency of the (under the uniqueness invariant, unique)
row with the given channel; modelled as updating the first such row. -/
def updateFirst : List ExcelDataRow → Int → JSNum → List ExcelDataRow
  | [], _, _ => []
  | r :: rest, c, f =>
    if r.channel == c then { r with frequency := f } :: rest
    else r :: updateFirst rest c f

/-- One iteration of the `uploadData` loop (source lines 96-114) without
failures: find the row with the record's channel, update it if present,
create it otherwise. -/
def uploadStep (db : List ExcelDataRow) (rec : ExcelDataRow) : List ExcelDataRow :=
  match db.find? (fun r => r.channel == rec.channel) with
  | some _ => updateFirst db rec.channel rec.frequency
  | none => db ++ [{ channel := rec.channel, frequency := rec.frequency }]

/-- The source loop applied to a whole record list, no failures. -/
def applyUpserts (db : List ExcelDataRow) (recs : List ExcelDataRow) : List ExcelDataRow :=
  recs.foldl uploadStep db

/-- The store-operation trace of a failure-free run of the loop. -/
def pureTrace (db : List ExcelDataRow) : List ExcelDataRow → List StoreOp
  | [] => []
  | rec :: rest =>
    StoreOp.find rec.channel ::
      (match db.find? (fun r => r.channel == rec.channel) with
       | some _ => StoreOp.update rec.channel rec.frequency
       | none => StoreOp.create rec.channel rec.frequency) ::
      pureTrace (uploadStep db rec) rest

/-- The `uploadData` loop under a failure oracle: `fails k` says whether
the `k`-th store round trip (counting from `k₀`) throws.  Each record
awaits a `find`, then an `update` or a `create`; a throw leaves the
store as it was before the throwing operation and aborts the loop.
Returns the final store, the trace of completed operations, and whether
an exception reached the surrounding `catch`. -/
def runUpload (fails : Nat → Bool) :
    List ExcelDataRow → List ExcelDataRow → Nat →
    List ExcelDataRow × List StoreOp × Bool
  | [], db, _ => (db, [], false)
  | rec :: rest, db, k =>
    if fails k then (db, [], true)
    else
      match db.find? (fun r => r.channel == rec.channel) with
      | some _ =>
        if fails (k + 1) then (db, [StoreOp.find rec.channel], true)
        else
          let after := runUpload fails rest (updateFirst db rec.channel rec.frequency) (k + 2)
          (after.1, StoreOp.find rec.channel :: StoreOp.update rec.channel rec.frequency :: after.2.1,
            after.2.2)
      | none =>
        if fails (k + 1) then (db, [StoreOp.find rec.channel], true)
        else
          let after := runUpload fails rest
            (db ++ [{ channel := rec.channel, frequency := rec.frequency }]) (k + 2)
          (after.1, StoreOp.find rec.channel :: StoreOp.create rec.channel rec.frequency :: after.2.1,
            after.2.2)

/-- The failure oracle of a run in which every store operation succeeds. -/
def noFail : Nat → Bool := fun _ => false

/-- `uploadData` (source lines 93-122): run the loop from the given
store; the `catch` of lines 118-121 turns a store-level throw into the
error log line, otherwise the success line of line 117 is printed.
The function is total: it never rethrows to its caller. -/
def uploadData (fails : Nat → Bool) (db : List ExcelDataRow)
    (excelData : List ExcelDataRow) :
    List ExcelDataRow × List StoreOp × List LogMsg :=
  let run := runUpload fails excelData db 0
  (run.1, run.2.1, [if run.2.2 then LogMsg.uploadError else LogMsg.dataUploaded])

/-- "The store holds at most one row per channel value". -/
def AtMostOnePerChannel (db : List ExcelDataRow) : Prop :=
  ∀ c : Int, db.countP (fun r => r.channel == c) ≤ 1

/-- The frequency carried by the last record of a given channel in a
record sequence. -/
def lastFrequencyOf (recs : List ExcelDataRow) (c : Int) : Option JSNum :=
  (recs.reverse.find? (fun r => r.channel == c)).map (fun r => r.frequency)

/-! ## `fetchData` and `main` -/

/-- `fetchData` (source lines 125-136): `findMany` either yields the
whole table, which is logged, or throws and the `catch` logs the error;
total, never rethrows. -/
def fetchData (findManyFails : Bool) (db : List ExcelDataRow) :
    List ExcelDataRow × List LogMsg :=
  if findManyFails then ([], [LogMsg.fetchError])
  else (db, [LogMsg.fetchedData])

/-- `main` (source lines 139-157) over abstract stage outcomes: each
stage either returns normally or throws (`Except.error`).  The result
records whether `prisma.$disconnect()` in the `finally` block was
reached and what the `try`/`catch` of `main` itself logged.  The
function is total: no stage failure escapes `main`. -/
def mainFlow (extract : Except Unit (List ExcelDataRow))
    (upload : Except Unit Unit) (fetch : Except Unit Unit) :
    Bool × List LogMsg :=
  match extract with
  | Except.error _ => (true, [LogMsg.mainError])
  | Except.ok _ =>
    match upload with
    | Except.error _ => (true, [LogMsg.mainError])
    | Except.ok _ =>
      match fetch with
      | Except.error _ => (true, [LogMsg.mainError])
      | Except.ok _ => (true, [LogMsg.programCompleted])

/-! ## Basic facts about the extractor -/

theorem isValidAux_eq_false (l : List Char) : ∀ b, isValidAux l b = false := by
  induction l with
  | nil => intro b; rfl
  | cons c rest ih =>
    intro b
    rw [isValidAux]
    by_cases hc : (c == 'א') = true
    · rw [if_pos hc]; exact ih true
    · rw [if_neg hc]
      cases b with
      | true =>
        simp only [if_true]
        split <;> rfl
      | false =>
        simp only [Bool.false_eq_true, if_false]
        exact ih false

theorem isValidChannelFormat_false (s : String) : isValidChannelFormat s = false :=
  isValidAux_eq_false s.data false

theorem processRow_rejects (pf : String → JSNum) (pi : List Char → Int)
    (row : SheetRow) (n : Nat) :
    processRow pf pi row n = (none, [LogMsg.invalidChannel n]) := by
  rcases row with ⟨c1, c2⟩
  cases c1 with
  | nonString => rfl
  | str s => simp [processRow, isValidChannelFormat_false]

theorem extractGo_eq (pf : String → JSNum) (pi : List Char → Int)
    (rows : List SheetRow) : ∀ n, extractGo pf pi rows n =
      ([], (List.range' n rows.length).map LogMsg.invalidChannel) := by
  induction rows with
  | nil => intro n; rfl
  | cons row rest ih =>
    intro n
    rw [extractGo, processRow_rejects, ih (n + 1)]
    simp [List.range'_succ]

theorem countP_invalid_range' (len : Nat) : ∀ n t, n ≤ t → t < n + len →
    ((List.range' n len).map LogMsg.invalidChannel).countP
      (fun m => logRowNumber m == some t) = 1 := by
  induction len with
  | zero => intro n t h1 h2; omega
  | succ len ih =>
    intro n t h1 h2
    rw [List.range'_succ, List.map_cons, List.countP_cons]
    by_cases ht : t = n
    · subst ht
      have hz : ((List.range' (t + 1) len).map LogMsg.invalidChannel).countP
          (fun m => logRowNumber m == some t) = 0 := by
        rw [List.countP_eq_zero]
        intro m hm
        rw [List.mem_map] at hm
        obtain ⟨j, hj, rfl⟩ := hm
        rw [List.mem_range'_1] at hj
        simp only [logRowNumber, beq_iff_eq, Option.some.injEq]
        omega
      rw [hz]
      simp [logRowNumber]
    · rw [ih (n + 1) t (by omega) (by omega)]
      simp [logRowNumber, Ne.symm ht]

/-! ## Facts about the store operations -/

theorem updateFirst_map_channel (db : List ExcelDataRow) (c : Int) (f : JSNum) :
    (updateFirst db c f).map (fun r => r.channel) = db.map (fun r => r.channel) := by
  induction db with
  | nil => rfl
  | cons r rest ih =>
    rw [updateFirst]
    by_cases h : (r.channel == c) = true
    · rw [if_pos h]; rfl
    · rw [if_neg h]
      simp only [List.map_cons]
      rw [ih]

theorem find?_updateFirst_self (db : List ExcelDataRow) (c : Int) (f : JSNum) :
    (db.find? (fun r => r.channel == c)).isSome = true →
    (updateFirst db c f).find? (fun r => r.channel == c) =
      some { channel := c, frequency := f } := by
  induction db with
  | nil => intro h; simp [List.find?] at h
  | cons r rest ih =>
    intro h
    rcases r with ⟨rc, rf⟩
    rw [updateFirst]
    cases hc : rc == c with
    | true =>
      have hcc : rc = c := by simpa using hc
      subst hcc
      rw [if_pos rfl]
      simp [List.find?_cons, hc]
    | false =>
      rw [if_neg (by simp [hc]), List.find?_cons]
      simp only [hc]
      rw [List.find?_cons] at h
      simp only [hc] at h
      exact ih h

theorem find?_updateFirst_other (db : List ExcelDataRow) (c₀ : Int) (f : JSNum)
    (c : Int) (h : c ≠ c₀) :
    (updateFirst db c₀ f).find? (fun r => r.channel == c) =
      db.find? (fun r => r.channel == c) := by
  induction db with
  | nil => rfl
  | cons r rest ih =>
    rcases r with ⟨rc, rf⟩
    rw [updateFirst]
    cases hc : rc == c₀ with
    | true =>
      have hcc : rc = c₀ := by simpa using hc
      subst hcc
      rw [if_pos rfl]
      have hne : (rc == c) = false := by
        simp only [beq_eq_false_iff_ne, ne_eq]
        exact fun hcc => h hcc.symm
      rw [List.find?_cons, List.find?_cons]
      simp only [hne]
    | false =>
      rw [if_neg (by simp [hc]), List.find?_cons, List.find?_cons]
      cases hcc : rc == c with
      | true => simp only
      | false =>
        simp only
        exact ih

theorem find?_uploadStep (db : List ExcelDataRow) (rec : ExcelDataRow) (c : Int) :
    (uploadStep db rec).find? (fun r => r.channel == c) =
      if c = rec.channel then some { channel := rec.channel, frequency := rec.frequency }
      else db.find? (fun r => r.channel == c) := by
  rw [uploadStep]
  cases hfind : db.find? (fun r => r.channel == rec.channel) with
  | some r =>
    by_cases hc : c = rec.channel
    · rw [if_pos hc, hc]
      exact find?_updateFirst_self db rec.channel rec.frequency (by rw [hfind]; rfl)
    · rw [if_neg hc]
      exact find?_updateFirst_other db rec.channel rec.frequency c hc
  | none =>
    by_cases hc : c = rec.channel
    · rw [if_pos hc, hc, List.find?_append, hfind]
      simp [List.find?]
    · rw [if_neg hc, List.find?_append]
      have hb : (rec.channel == c) = false := by
        simp only [beq_eq_false_iff_ne, ne_eq]
        exact fun hq => hc hq.symm
      have hz : ([({ channel := rec.channel, frequency := rec.frequency } : ExcelDataRow)].find?
          (fun r => r.channel == c)) = none := by
        rw [List.find?_cons]
        simp [hb]
      rw [hz, Option.or_none]

theorem uploadStep_map_channel (db : List ExcelDataRow) (rec : ExcelDataRow) :
    (uploadStep db rec).map (fun r => r.channel) =
      if rec.channel ∈ db.map (fun r => r.channel) then db.map (fun r => r.channel)
      else db.map (fun r => r.channel) ++ [rec.channel] := by
  rw [uploadStep]
  cases hfind : db.find? (fun r => r.channel == rec.channel) with
  | some r =>
    have hmem : rec.channel ∈ db.map (fun r => r.channel) := by
      refine List.mem_map.mpr ⟨r, List.mem_of_find?_eq_some hfind, ?_⟩
      simpa using List.find?_some hfind
    rw [if_pos hmem, updateFirst_map_channel]
  | none =>
    have hmem : rec.channel ∉ db.map (fun r => r.channel) := by
      intro hmem
      obtain ⟨r, hr, hc⟩ := List.mem_map.mp hmem
      exact (List.find?_eq_none.mp hfind r hr) (by simpa using hc)
    rw [if_neg hmem, List.map_append]
    rfl

theorem mem_chans_iff_find?_isSome (db : List ExcelDataRow) (c : Int) :
    c ∈ db.map (fun r => r.channel) ↔ (db.find? (fun r => r.channel == c)).isSome = true := by
  rw [List.find?_isSome, List.mem_map]
  constructor
  · rintro ⟨r, hr, rfl⟩
    exact ⟨r, hr, by simp⟩
  · rintro ⟨r, hr, hc⟩
    exact ⟨r, hr, by simpa using hc⟩

theorem applyUpserts_cons (db : List ExcelDataRow) (rec : ExcelDataRow)
    (rest : List ExcelDataRow) :
    applyUpserts db (rec :: rest) = applyUpserts (uploadStep db rec) rest := rfl

theorem runUpload_noFail (recs : List ExcelDataRow) : ∀ (db : List ExcelDataRow) (k : Nat),
    runUpload noFail recs db k = (applyUpserts db recs, pureTrace db recs, false) := by
  induction recs with
  | nil => intro db k; rfl
  | cons rec rest ih =>
    intro db k
    rw [runUpload, pureTrace, applyUpserts_cons, uploadStep]
    simp only [noFail, Bool.false_eq_true, if_false]
    cases hfind : db.find? (fun r => r.channel == rec.channel) with
    | some r => simp only [ih]
    | none => simp only [ih]

theorem nodup_uploadStep (db : List ExcelDataRow) (rec : ExcelDataRow)
    (h : (db.map (fun r => r.channel)).Nodup) :
    ((uploadStep db rec).map (fun r => r.channel)).Nodup := by
  rw [uploadStep_map_channel]
  by_cases hmem : rec.channel ∈ db.map (fun r => r.channel)
  · rwa [if_pos hmem]
  · rw [if_neg hmem, List.nodup_append]
    refine ⟨h, List.nodup_singleton _, ?_⟩
    simp only [List.disjoint_left, List.mem_singleton]
    intro a ha hac
    exact hmem (hac ▸ ha)

theorem nodup_applyUpserts (recs : List ExcelDataRow) : ∀ db : List ExcelDataRow,
    (db.map (fun r => r.channel)).Nodup →
    ((applyUpserts db recs).map (fun r => r.channel)).Nodup := by
  induction recs with
  | nil => intro db h; exact h
  | cons rec rest ih =>
    intro db h
    exact ih (uploadStep db rec) (nodup_uploadStep db rec h)

theorem nodup_runUpload (fails : Nat → Bool) (recs : List ExcelDataRow) :
    ∀ (db : List ExcelDataRow) (k : Nat),
    (db.map (fun r => r.channel)).Nodup →
    (((runUpload fails recs db k).1).map (fun r => r.channel)).Nodup := by
  induction recs with
  | nil => intro db k h; exact h
  | cons rec rest ih =>
    intro db k h
    rw [runUpload]
    by_cases h0 : fails k = true
    · simp only [h0, if_true]; exact h
    · simp only [h0, Bool.false_eq_true, if_false]
      cases hfind : db.find? (fun r => r.channel == rec.channel) with
      | some r =>
        by_cases h1 : fails (k + 1) = true
        · simp only [h1, if_true]; exact h
        · simp only [h1, Bool.false_eq_true, if_false]
          have hstep : uploadStep db rec = updateFirst db rec.channel rec.frequency := by
            rw [uploadStep, hfind]
          exact ih _ (k + 2) (by rw [← hstep]; exact nodup_uploadStep db rec h)
      | none =>
        by_cases h1 : fails (k + 1) = true
        · simp only [h1, if_true]; exact h
        · simp only [h1, Bool.false_eq_true, if_false]
          have hstep : uploadStep db rec =
              db ++ [{ channel := rec.channel, frequency := rec.frequency }] := by
            rw [uploadStep, hfind]
          exact ih _ (k + 2) (by rw [← hstep]; exact nodup_uploadStep db rec h)

theorem countP_eq_count_map_channel (db : List ExcelDataRow) (c : Int) :
    db.countP (fun r => r.channel == c) = (db.map (fun r => r.channel)).count c := by
  rw [List.count, List.countP_map]
  rfl

theorem atMostOne_iff_nodup (db : List ExcelDataRow) :
    AtMostOnePerChannel db ↔ (db.map (fun r => r.channel)).Nodup := by
  rw [List.nodup_iff_count_le_one]
  constructor
  · intro h a
    rw [← countP_eq_count_map_channel]
    exact h a
  · intro h c
    rw [countP_eq_count_map_channel]
    exact h c

theorem updateFirst_decomp (db : List ExcelDataRow) (c : Int) (f : JSNum) :
    (db.find? (fun r => r.channel == c)).isSome = true →
    ∃ pre q post, db = pre ++ q :: post ∧ q.channel = c ∧
      (∀ r' ∈ pre, r'.channel ≠ c) ∧
      updateFirst db c f = pre ++ { channel := c, frequency := f } :: post := by
  induction db with
  | nil => intro h; simp [List.find?] at h
  | cons r rest ih =>
    intro h
    rcases r with ⟨rc, rf⟩
    cases hc : rc == c with
    | true =>
      have hcc : rc = c := by simpa using hc
      subst hcc
      refine ⟨[], ⟨rc, rf⟩, rest, rfl, rfl, by simp, ?_⟩
      rw [updateFirst, if_pos hc]
      rfl
    | false =>
      have hne : rc ≠ c := by
        simp only [beq_eq_false_iff_ne, ne_eq] at hc
        exact hc
      rw [List.find?_cons] at h
      simp only [hc] at h
      obtain ⟨pre, q, post, hdb, hq, hpre, hupd⟩ := ih h
      refine ⟨⟨rc, rf⟩ :: pre, q, post, by rw [hdb]; rfl, hq, ?_, ?_⟩
      · intro r' hr'
        rcases List.mem_cons.mp hr' with h1 | h1
        · rw [h1]; exact hne
        · exact hpre r' h1
      · rw [updateFirst, if_neg (by simp [hc]), hupd]
        rfl

/-- C1: in every string cell value where the marker `א` is followed by at
least one further character (digits included), `isValidChannelFormat`
returns `false`; consequently, for every worksheet all of whose rows
carry a channel cell of the marker-then-digits form, the record sequence
extracted by `readExcelFile`'s row loop is empty. -/
theorem extraction_always_rejects_marker_digits :
    (∀ s : String, 2 ≤ ((s.data).dropWhile (fun c => c ≠ 'א')).length →
      isValidChannelFormat s = false)
    ∧ (∀ (pf : String → JSNum) (pi : List Char → Int) (rows : List SheetRow),
        (∀ row ∈ rows, ∃ s : String, row.cell1 = CellValue.str s ∧
          (match s.data with
           | [] => false
           | c :: rest => c == 'א' && !rest.isEmpty && rest.all Char.isDigit) = true) →
        (extractRows pf pi rows).1 = []) := by
  constructor
  · intro s _
    exact isValidChannelFormat_false s
  · intro pf pi rows _
    rw [extractRows, extractGo_eq]

theorem extraction_always_rejects_marker_digits_witness :
    (2 ≤ (((String.mk ['א', '7']).data).dropWhile (fun c => c ≠ 'א')).length
      ∧ isValidChannelFormat (String.mk ['א', '7']) = false)
    ∧ ((∀ row ∈ ([⟨CellValue.str (String.mk ['א', '7']),
          ⟨CellType.nonNull, String.mk ['1']⟩⟩] : List SheetRow),
          ∃ s : String, row.cell1 = CellValue.str s ∧
            (match s.data with
             | [] => false
             | c :: rest => c == 'א' && !rest.isEmpty && rest.all Char.isDigit) = true)
       ∧ (extractRows (fun _ => JSNum.nan) (fun _ => (0 : Int))
            [⟨CellValue.str (String.mk ['א', '7']),
              ⟨CellType.nonNull, String.mk ['1']⟩⟩]).1 = []) := by
  have hshape : ∀ row ∈ ([⟨CellValue.str (String.mk ['א', '7']),
      ⟨CellType.nonNull, String.mk ['1']⟩⟩] : List SheetRow),
      ∃ s : String, row.cell1 = CellValue.str s ∧
        (match s.data with
         | [] => false
         | c :: rest => c == 'א' && !rest.isEmpty && rest.all Char.isDigit) = true := by
    intro row h
    rw [List.mem_singleton] at h
    subst h
    exact ⟨String.mk ['א', '7'], rfl, by decide⟩
  exact ⟨⟨by decide, extraction_always_rejects_marker_digits.1 _ (by decide)⟩,
    hshape, extraction_always_rejects_marker_digits.2 _ _ _ hshape⟩

/-- C6: when the workbook read throws, or when the first worksheet is
absent, `readExcelFile` returns the empty record sequence together with
exactly one error log line; being a total function of the modelled
outcome, it never rethrows to its caller in these cases. -/
theorem readExcelFile_file_level_errors :
    ∀ (pf : String → JSNum) (pi : List Char → Int),
      readExcelFile pf pi WorkbookResult.readFailed = ([], [LogMsg.readFileError])
      ∧ readExcelFile pf pi (WorkbookResult.ok none) = ([], [LogMsg.worksheetUndefined]) :=
  fun _ _ => ⟨rfl, rfl⟩

/-- C7: every row whose frequency cell has the Null (empty) cell type is
excluded from the extracted sequence, and among the messages the
extractor logs exactly one refers to that row's 1-based row number.
(As the channel validation rejects every row, the one message is the
invalid-channel error, and the extracted sequence is in fact empty.) -/
theorem empty_frequency_row_excluded_logged :
    ∀ (pf : String → JSNum) (pi : List Char → Int) (rows : List SheetRow)
      (i : Nat) (h : i < rows.length),
      (rows.get ⟨i, h⟩).cell2.ctype = CellType.null →
      (extractRows pf pi rows).1 = []
      ∧ (extractRows pf pi rows).2.countP
          (fun m => logRowNumber m == some (i + 1)) = 1 := by
  intro pf pi rows i h _
  rw [extractRows, extractGo_eq]
  exact ⟨rfl, countP_invalid_range' rows.length 1 (i + 1) (by omega) (by omega)⟩

theorem empty_frequency_row_excluded_logged_witness :
    (([⟨CellValue.str (String.mk ['א', '7']), ⟨CellType.null, String.mk []⟩⟩] :
        List SheetRow).get ⟨0, by decide⟩).cell2.ctype = CellType.null
    ∧ ((extractRows (fun _ => JSNum.nan) (fun _ => (0 : Int))
          [⟨CellValue.str (String.mk ['א', '7']), ⟨CellType.null, String.mk []⟩⟩]).1 = []
       ∧ (extractRows (fun _ => JSNum.nan) (fun _ => (0 : Int))
            [⟨CellValue.str (String.mk ['א', '7']), ⟨CellType.null, String.mk []⟩⟩]).2.countP
            (fun m => logRowNumber m == some (0 + 1)) = 1) :=
  ⟨rfl, empty_frequency_row_excluded_logged _ _ _ 0 (by decide) rfl⟩

/-- C8: the compound frequency acceptance condition
`!isNaN(f) && (Number.isInteger(f) || !Number.isNaN(f))` is equivalent
to `!isNaN(f)` alone, so every non-NaN value (finite or infinite) is
accepted as a frequency. -/
theorem freqCheck_equiv_not_isNaN :
    (∀ f : JSNum, freqCheck f = !(jsIsNaN f))
    ∧ (∀ f : JSNum, freqCheck f = true ∨ f = JSNum.nan) := by
  constructor <;> intro f <;> cases f <;>
    simp [freqCheck, jsIsNaN, jsNumberIsNaN, jsNumberIsInteger]

/-- C9: on every combination of stage outcomes — extraction,
synchronization or reporting returning normally or throwing — `main`
reaches the `finally` block and releases the store connection (first
component `true`), and `main` is a total function of those outcomes, so
no stage failure propagates out of it uncaught: it ends either with the
completion log line or with the caught-error log line. -/
theorem main_releases_connection :
    ∀ (extract : Except Unit (List ExcelDataRow)) (upload fetch : Except Unit Unit),
      (mainFlow extract upload fetch).1 = true
      ∧ ((mainFlow extract upload fetch).2 = [LogMsg.mainError]
         ∨ (mainFlow extract upload fetch).2 = [LogMsg.programCompleted]) := by
  intro e u f
  cases e <;> cases u <;> cases f <;> simp [mainFlow]

/-- C10: `uploadData` on the empty record sequence performs no store
operation (empty trace), leaves every stored row exactly unchanged, and
still logs the success message. -/
theorem uploadData_empty_frame :
    ∀ (fails : Nat → Bool) (db : List ExcelDataRow),
      uploadData fails db [] = (db, [], [LogMsg.dataUploaded]) :=
  fun _ _ => rfl

/-- C2: a failure-free `uploadData` processes the records one at a time
in sequence order (the final store is the left fold of the single-record
upsert and the trace interleaves one `find` per record with its `update`
or `create`); for each record, if the store has a row with the same
channel the step overwrites the frequency of the first such row and
changes nothing else, and if it has none the step appends a new row with
both fields. -/
theorem uploadData_upsert_per_record :
    (∀ (db recs : List ExcelDataRow),
      uploadData noFail db recs =
        (recs.foldl uploadStep db, pureTrace db recs, [LogMsg.dataUploaded]))
    ∧ (∀ (db : List ExcelDataRow) (rec : ExcelDataRow),
        (db.find? (fun r => r.channel == rec.channel)).isSome = true →
        ∃ pre q post, db = pre ++ q :: post ∧ q.channel = rec.channel ∧
          (∀ r' ∈ pre, r'.channel ≠ rec.channel) ∧
          uploadStep db rec =
            pre ++ { channel := rec.channel, frequency := rec.frequency } :: post)
    ∧ (∀ (db : List ExcelDataRow) (rec : ExcelDataRow),
        db.find? (fun r => r.channel == rec.channel) = none →
        uploadStep db rec =
          db ++ [{ channel := rec.channel, frequency := rec.frequency }]) := by
  refine ⟨?_, ?_, ?_⟩
  · intro db recs
    simp only [uploadData, runUpload_noFail]
    rfl
  · intro db rec h
    obtain ⟨pre, q, post, hdb, hq, hpre, hupd⟩ :=
      updateFirst_decomp db rec.channel rec.frequency h
    refine ⟨pre, q, post, hdb, hq, hpre, ?_⟩
    rw [uploadStep]
    cases hfind : db.find? (fun r => r.channel == rec.channel) with
    | some r => exact hupd
    | none => rw [hfind] at h; simp at h
  · intro db rec h
    rw [uploadStep, h]

theorem uploadData_upsert_per_record_witness :
    ((([{ channel := 1, frequency := JSNum.posInf }] : List ExcelDataRow).find?
        (fun r => r.channel == (1 : Int))).isSome = true
     ∧ (∃ pre q post,
         ([{ channel := 1, frequency := JSNum.posInf }] : List ExcelDataRow) = pre ++ q :: post
         ∧ q.channel = (1 : Int)
         ∧ (∀ r' ∈ pre, r'.channel ≠ (1 : Int))
         ∧ uploadStep [{ channel := 1, frequency := JSNum.posInf }]
             { channel := 1, frequency := JSNum.nan } =
             pre ++ { channel := (1 : Int), frequency := JSNum.nan } :: post))
    ∧ (([] : List ExcelDataRow).find? (fun r => r.channel == (2 : Int)) = none
       ∧ uploadStep [] { channel := 2, frequency := JSNum.negInf } =
           [] ++ [{ channel := (2 : Int), frequency := JSNum.negInf }]) :=
  ⟨⟨rfl, uploadData_upsert_per_record.2.1 [{ channel := 1, frequency := JSNum.posInf }]
      { channel := 1, frequency := JSNum.nan } rfl⟩,
   rfl, uploadData_upsert_per_record.2.2 [] { channel := 2, frequency := JSNum.negInf } rfl⟩

/-- C3: if the store holds at most one row per channel before
`uploadData` runs, it still holds at most one row per channel after
`uploadData` runs on any record sequence, under any failure pattern of
the store operations. -/
theorem uploadData_preserves_uniqueness :
    ∀ (fails : Nat → Bool) (db recs : List ExcelDataRow),
      AtMostOnePerChannel db → AtMostOnePerChannel (uploadData fails db recs).1 := by
  intro fails db recs h
  exact (atMostOne_iff_nodup _).mpr
    (nodup_runUpload fails recs db 0 ((atMostOne_iff_nodup db).mp h))

theorem uploadData_preserves_uniqueness_witness :
    AtMostOnePerChannel []
    ∧ AtMostOnePerChannel
        (uploadData noFail [] [{ channel := 1, frequency := JSNum.nan },
          { channel := 1, frequency := JSNum.posInf }]).1 := by
  have h : AtMostOnePerChannel ([] : List ExcelDataRow) := fun c => by simp
  exact ⟨h, uploadData_preserves_uniqueness noFail _ _ h⟩

/-! ## Last-write characterization of the upsert fold -/

theorem lastFrequencyOf_cons (rec : ExcelDataRow) (rest : List ExcelDataRow) (c : Int) :
    lastFrequencyOf (rec :: rest) c =
      match lastFrequencyOf rest c with
      | some f => some f
      | none => if rec.channel == c then some rec.frequency else none := by
  rw [lastFrequencyOf, lastFrequencyOf, List.reverse_cons, List.find?_append]
  cases h : rest.reverse.find? (fun r => r.channel == c) with
  | some r => simp [Option.or]
  | none =>
    cases hc : rec.channel == c with
    | true => simp [Option.or, List.find?_cons, hc]
    | false => simp [Option.or, List.find?_cons, hc]

theorem find?_applyUpserts (recs : List ExcelDataRow) :
    ∀ (db : List ExcelDataRow) (c : Int),
    (applyUpserts db recs).find? (fun r => r.channel == c) =
      match lastFrequencyOf recs c with
      | some f => some { channel := c, frequency := f }
      | none => db.find? (fun r => r.channel == c) := by
  induction recs with
  | nil => intro db c; rfl
  | cons rec rest ih =>
    intro db c
    rw [applyUpserts_cons, ih, lastFrequencyOf_cons]
    cases hrest : lastFrequencyOf rest c with
    | some f => rfl
    | none =>
      rw [find?_uploadStep]
      by_cases hc : c = rec.channel
      · rw [if_pos hc]
        subst hc
        simp
      · have hb : (rec.channel == c) = false := by
          simp only [beq_eq_false_iff_ne, ne_eq]
          exact fun hq => hc hq.symm
        rw [if_neg hc]
        simp only [hb]
        simp

theorem mem_chans_uploadStep_self (db : List ExcelDataRow) (rec : ExcelDataRow) :
    rec.channel ∈ (uploadStep db rec).map (fun r => r.channel) := by
  rw [uploadStep_map_channel]
  by_cases h : rec.channel ∈ db.map (fun r => r.channel)
  · rwa [if_pos h]
  · rw [if_neg h]
    exact List.mem_append_right _ (List.mem_singleton.mpr rfl)

theorem mem_chans_uploadStep_mono (db : List ExcelDataRow) (rec : ExcelDataRow)
    (c : Int) (h : c ∈ db.map (fun r => r.channel)) :
    c ∈ (uploadStep db rec).map (fun r => r.channel) := by
  rw [uploadStep_map_channel]
  by_cases hm : rec.channel ∈ db.map (fun r => r.channel)
  · rwa [if_pos hm]
  · rw [if_neg hm]
    exact List.mem_append_left _ h

theorem mem_chans_applyUpserts_mono (recs : List ExcelDataRow) :
    ∀ (db : List ExcelDataRow) (c : Int), c ∈ db.map (fun r => r.channel) →
    c ∈ (applyUpserts db recs).map (fun r => r.channel) := by
  induction recs with
  | nil => intro db c h; exact h
  | cons rec rest ih =>
    intro db c h
    exact ih (uploadStep db rec) c (mem_chans_uploadStep_mono db rec c h)

theorem mem_chans_applyUpserts_of_mem (recs : List ExcelDataRow) :
    ∀ (db : List ExcelDataRow) (rec : ExcelDataRow), rec ∈ recs →
    rec.channel ∈ (applyUpserts db recs).map (fun r => r.channel) := by
  induction recs with
  | nil => intro db rec h; simp at h
  | cons r rest ih =>
    intro db rec h
    rcases List.mem_cons.mp h with h1 | h1
    · rw [h1, applyUpserts_cons]
      exact mem_chans_applyUpserts_mono rest _ _ (mem_chans_uploadStep_self db r)
    · exact ih (uploadStep db r) rec h1

theorem chans_applyUpserts_of_present (recs : List ExcelDataRow) :
    ∀ db : List ExcelDataRow,
    (∀ rec ∈ recs, rec.channel ∈ db.map (fun r => r.channel)) →
    (applyUpserts db recs).map (fun r => r.channel) = db.map (fun r => r.channel) := by
  induction recs with
  | nil => intro db _; rfl
  | cons rec rest ih =>
    intro db h
    have hmem : rec.channel ∈ db.map (fun r => r.channel) :=
      h rec (List.mem_cons_self rec rest)
    have hstep : (uploadStep db rec).map (fun r => r.channel) =
        db.map (fun r => r.channel) := by
      rw [uploadStep_map_channel, if_pos hmem]
    rw [applyUpserts_cons, ih]
    · exact hstep
    · intro r hr
      rw [hstep]
      exact h r (List.mem_cons_of_mem rec hr)

theorem pureTrace_no_create (recs : List ExcelDataRow) :
    ∀ db : List ExcelDataRow,
    (∀ rec ∈ recs, rec.channel ∈ db.map (fun r => r.channel)) →
    ∀ op ∈ pureTrace db recs, ∀ (c : Int) (f : JSNum), op ≠ StoreOp.create c f := by
  induction recs with
  | nil => intro db _ op hop; simp [pureTrace] at hop
  | cons rec rest ih =>
    intro db h op hop
    have hfind : (db.find? (fun r => r.channel == rec.channel)).isSome = true :=
      (mem_chans_iff_find?_isSome db rec.channel).mp (h rec (List.mem_cons_self rec rest))
    rw [pureTrace] at hop
    cases hfs : db.find? (fun r => r.channel == rec.channel) with
    | none => rw [hfs] at hfind; simp at hfind
    | some r =>
      rw [hfs] at hop
      simp only [List.mem_cons] at hop
      rcases hop with h1 | h2 | h3
      · rw [h1]; intro c f hne; cases hne
      · rw [h2]; intro c f hne; cases hne
      · have hstep : uploadStep db rec = updateFirst db rec.channel rec.frequency := by
          rw [uploadStep, hfs]
        refine ih (uploadStep db rec) ?_ op h3
        intro r' hr'
        rw [hstep, updateFirst_map_channel]
        exact h r' (List.mem_cons_of_mem rec hr')

theorem store_ext (db : List ExcelDataRow) : ∀ db' : List ExcelDataRow,
    db.map (fun r => r.channel) = db'.map (fun r => r.channel) →
    (db.map (fun r => r.channel)).Nodup →
    (∀ c, db.find? (fun r => r.channel == c) = db'.find? (fun r => r.channel == c)) →
    db = db' := by
  induction db with
  | nil =>
    intro db' hmap _ _
    have : db'.map (fun r => r.channel) = [] := hmap.symm
    exact (List.map_eq_nil_iff.mp this).symm
  | cons r rest ih =>
    intro db' hmap hnodup hfind
    cases db' with
    | nil => simp at hmap
    | cons r' rest' =>
      simp only [List.map_cons, List.cons.injEq] at hmap
      obtain ⟨hch, hmaps⟩ := hmap
      have hpr : (r.channel == r.channel) = true := by simp
      have hpr' : (r'.channel == r.channel) = true := by simp [hch]
      have h1 := hfind r.channel
      rw [List.find?_cons, List.find?_cons] at h1
      simp only [hpr, hpr'] at h1
      have hrr : r = r' := by
        injection h1 with h1
      subst hrr
      rw [List.map_cons, List.nodup_cons] at hnodup
      have htail : ∀ c, rest.find? (fun x => x.channel == c) =
          rest'.find? (fun x => x.channel == c) := by
        intro c
        cases hc : r.channel == c with
        | true =>
          have hcc : r.channel = c := by simpa using hc
          have hnone : rest.find? (fun x => x.channel == c) = none := by
            rw [List.find?_eq_none]
            intro x hx hpx
            exact hnodup.1 (List.mem_map.mpr ⟨x, hx, by rw [hcc]; simpa using hpx⟩)
          have hnone' : rest'.find? (fun x => x.channel == c) = none := by
            rw [List.find?_eq_none]
            intro x hx hpx
            refine hnodup.1 ?_
            rw [hmaps]
            exact List.mem_map.mpr ⟨x, hx, by rw [hcc]; simpa using hpx⟩
          rw [hnone, hnone']
        | false =>
          have h2 := hfind c
          rw [List.find?_cons, List.find?_cons] at h2
          simpa only [hc] using h2
      rw [ih rest' hmaps hnodup.2 htail]

theorem lastFrequencyOf_isSome_of_mem (recs : List ExcelDataRow) (c : Int)
    (h : c ∈ recs.map (fun r => r.channel)) : (lastFrequencyOf recs c).isSome = true := by
  obtain ⟨r, hr, hc⟩ := List.mem_map.mp h
  rw [lastFrequencyOf]
  have hsome : (recs.reverse.find? (fun x => x.channel == c)).isSome = true :=
    List.find?_isSome.mpr ⟨r, List.mem_reverse.mpr hr, by simp [hc]⟩
  cases hf : recs.reverse.find? (fun x => x.channel == c) with
  | none => rw [hf] at hsome; simp at hsome
  | some x => simp [hf]

/-- C4 counterexample: the claim quantifies over arbitrary initial
stores, but if the store starts with two rows for channel 1 (violating
the documented uniqueness invariant), channel 1 still occurs twice after
running `uploadData` twice on a sequence containing channel 1, not
exactly once as claimed. -/
theorem uploadData_twice_not_unique :
    (1 : Int) ∈ ([{ channel := 1, frequency := JSNum.nan }] :
        List ExcelDataRow).map (fun r => r.channel)
    ∧ ((uploadData noFail (uploadData noFail
          [{ channel := 1, frequency := JSNum.posInf },
           { channel := 1, frequency := JSNum.negInf }]
          [{ channel := 1, frequency := JSNum.nan }]).1
          [{ channel := 1, frequency := JSNum.nan }]).1).countP
        (fun r => r.channel == (1 : Int)) = 2 := by
  constructor
  · simp
  · rfl

/-- C4 (amended): provided the store holds at most one row per channel
before the first run, running `uploadData` twice with the same record
sequence yields the same store as one run (the second run is a no-op on
the store), the second run performs no `create` operation, and each
channel occurring in the sequence appears exactly once afterwards with
its frequency equal to the value of the last record of that channel in
the sequence. -/
theorem uploadData_idempotent :
    ∀ (db recs : List ExcelDataRow), AtMostOnePerChannel db →
      (uploadData noFail (uploadData noFail db recs).1 recs).1 =
        (uploadData noFail db recs).1
      ∧ (∀ op ∈ (uploadData noFail (uploadData noFail db recs).1 recs).2.1,
          ∀ (c : Int) (f : JSNum), op ≠ StoreOp.create c f)
      ∧ ∀ c ∈ recs.map (fun r => r.channel),
          ((uploadData noFail (uploadData noFail db recs).1 recs).1).countP
              (fun r => r.channel == c) = 1
          ∧ ((uploadData noFail (uploadData noFail db recs).1 recs).1).find?
              (fun r => r.channel == c) =
              (lastFrequencyOf recs c).map
                (fun f => { channel := c, frequency := f }) := by
  intro db recs h
  have hfirst : (uploadData noFail db recs).1 = applyUpserts db recs := by
    simp only [uploadData, runUpload_noFail]
  have hsecond1 : (uploadData noFail (uploadData noFail db recs).1 recs).1 =
      applyUpserts (applyUpserts db recs) recs := by
    rw [hfirst]; simp only [uploadData, runUpload_noFail]
  have hsecondtr : (uploadData noFail (uploadData noFail db recs).1 recs).2.1 =
      pureTrace (applyUpserts db recs) recs := by
    rw [hfirst]; simp only [uploadData, runUpload_noFail]
  have hnodup1 : ((applyUpserts db recs).map (fun r => r.channel)).Nodup :=
    nodup_applyUpserts recs db ((atMostOne_iff_nodup db).mp h)
  have hpresent : ∀ rec ∈ recs,
      rec.channel ∈ (applyUpserts db recs).map (fun r => r.channel) :=
    fun rec hr => mem_chans_applyUpserts_of_mem recs db rec hr
  have hchans : (applyUpserts (applyUpserts db recs) recs).map (fun r => r.channel) =
      (applyUpserts db recs).map (fun r => r.channel) :=
    chans_applyUpserts_of_present recs (applyUpserts db recs) hpresent
  have hfindeq : ∀ c,
      (applyUpserts (applyUpserts db recs) recs).find? (fun r => r.channel == c) =
      (applyUpserts db recs).find? (fun r => r.channel == c) := by
    intro c
    rw [find?_applyUpserts recs (applyUpserts db recs) c, find?_applyUpserts recs db c]
    cases hl : lastFrequencyOf recs c <;> rfl
  have heq : applyUpserts (applyUpserts db recs) recs = applyUpserts db recs := by
    refine store_ext _ _ hchans ?_ hfindeq
    rw [hchans]; exact hnodup1
  refine ⟨?_, ?_, ?_⟩
  · rw [hsecond1, heq, hfirst]
  · intro op hop c f
    rw [hsecondtr] at hop
    exact pureTrace_no_create recs (applyUpserts db recs) hpresent op hop c f
  · intro c hc
    obtain ⟨r, hr, hcr⟩ := List.mem_map.mp hc
    have hmem1 : c ∈ (applyUpserts db recs).map (fun r => r.channel) := by
      rw [← hcr]; exact hpresent r hr
    constructor
    · rw [hsecond1, heq, countP_eq_count_map_channel]
      have hle := (List.nodup_iff_count_le_one.mp hnodup1) c
      have hge := List.count_pos_iff.mpr hmem1
      omega
    · rw [hsecond1, heq, find?_applyUpserts recs db c]
      have hs := lastFrequencyOf_isSome_of_mem recs c hc
      cases hl : lastFrequencyOf recs c with
      | none => rw [hl] at hs; simp at hs
      | some f => simp

theorem uploadData_idempotent_witness :
    AtMostOnePerChannel []
    ∧ ((uploadData noFail
          (uploadData noFail [] [{ channel := 1, frequency := JSNum.nan }]).1
          [{ channel := 1, frequency := JSNum.nan }]).1 =
        (uploadData noFail [] [{ channel := 1, frequency := JSNum.nan }]).1
       ∧ (∀ op ∈ (uploadData noFail
            (uploadData noFail [] [{ channel := 1, frequency := JSNum.nan }]).1
            [{ channel := 1, frequency := JSNum.nan }]).2.1,
           ∀ (c : Int) (f : JSNum), op ≠ StoreOp.create c f)
       ∧ ∀ c ∈ ([{ channel := 1, frequency := JSNum.nan }] :
            List ExcelDataRow).map (fun r => r.channel),
           ((uploadData noFail
              (uploadData noFail [] [{ channel := 1, frequency := JSNum.nan }]).1
              [{ channel := 1, frequency := JSNum.nan }]).1).countP
              (fun r => r.channel == c) = 1
           ∧ ((uploadData noFail
              (uploadData noFail [] [{ channel := 1, frequency := JSNum.nan }]).1
              [{ channel := 1, frequency := JSNum.nan }]).1).find?
              (fun r => r.channel == c) =
              (lastFrequencyOf [{ channel := 1, frequency := JSNum.nan }] c).map
                (fun f => { channel := c, frequency := f })) := by
  have h : AtMostOnePerChannel ([] : List ExcelDataRow) := fun c => by simp
  exact ⟨h, uploadData_idempotent [] [{ channel := 1, frequency := JSNum.nan }] h⟩

/-! ## Failure behaviour of the upload loop -/

theorem pureTrace_cons_some (db : List ExcelDataRow) (rec : ExcelDataRow)
    (rest : List ExcelDataRow) (r : ExcelDataRow)
    (hfind : db.find? (fun x => x.channel == rec.channel) = some r) :
    pureTrace db (rec :: rest) =
      StoreOp.find rec.channel :: StoreOp.update rec.channel rec.frequency ::
        pureTrace (uploadStep db rec) rest := by
  rw [pureTrace, hfind]

theorem pureTrace_cons_none (db : List ExcelDataRow) (rec : ExcelDataRow)
    (rest : List ExcelDataRow)
    (hfind : db.find? (fun x => x.channel == rec.channel) = none) :
    pureTrace db (rec :: rest) =
      StoreOp.find rec.channel :: StoreOp.create rec.channel rec.frequency ::
        pureTrace (uploadStep db rec) rest := by
  rw [pureTrace, hfind]

theorem runUpload_cons_fail0 (fails : Nat → Bool) (rec : ExcelDataRow)
    (rest db : List ExcelDataRow) (k : Nat) (h : fails k = true) :
    runUpload fails (rec :: rest) db k = (db, [], true) := by
  rw [runUpload, if_pos h]

theorem runUpload_cons_abort (fails : Nat → Bool) (rec : ExcelDataRow)
    (rest db : List ExcelDataRow) (k : Nat) (h0 : fails k = false)
    (h1 : fails (k + 1) = true) :
    runUpload fails (rec :: rest) db k = (db, [StoreOp.find rec.channel], true) := by
  rw [runUpload, if_neg (by simp [h0])]
  split <;> rw [if_pos h1]

theorem runUpload_cons_some (fails : Nat → Bool) (rec : ExcelDataRow)
    (rest db : List ExcelDataRow) (k : Nat) (r : ExcelDataRow)
    (h0 : fails k = false)
    (hfind : db.find? (fun x => x.channel == rec.channel) = some r)
    (h1 : fails (k + 1) = false) :
    runUpload fails (rec :: rest) db k =
      ((runUpload fails rest (updateFirst db rec.channel rec.frequency) (k + 2)).1,
       StoreOp.find rec.channel :: StoreOp.update rec.channel rec.frequency ::
         (runUpload fails rest (updateFirst db rec.channel rec.frequency) (k + 2)).2.1,
       (runUpload fails rest (updateFirst db rec.channel rec.frequency) (k + 2)).2.2) := by
  rw [runUpload, if_neg (by simp [h0]), hfind]
  simp only [h1, Bool.false_eq_true, if_false]

theorem runUpload_cons_none (fails : Nat → Bool) (rec : ExcelDataRow)
    (rest db : List ExcelDataRow) (k : Nat)
    (h0 : fails k = false)
    (hfind : db.find? (fun x => x.channel == rec.channel) = none)
    (h1 : fails (k + 1) = false) :
    runUpload fails (rec :: rest) db k =
      ((runUpload fails rest
          (db ++ [{ channel := rec.channel, frequency := rec.frequency }]) (k + 2)).1,
       StoreOp.find rec.channel :: StoreOp.create rec.channel rec.frequency ::
         (runUpload fails rest
            (db ++ [{ channel := rec.channel, frequency := rec.frequency }]) (k + 2)).2.1,
       (runUpload fails rest
          (db ++ [{ channel := rec.channel, frequency := rec.frequency }]) (k + 2)).2.2) := by
  rw [runUpload, if_neg (by simp [h0]), hfind]
  simp only [h1, Bool.false_eq_true, if_false]

theorem runUpload_failure_aux (fails : Nat → Bool) (recs : List ExcelDataRow) :
    ∀ (db : List ExcelDataRow) (k : Nat),
    (runUpload fails recs db k).2.2 = true →
    ∃ i, ∃ h : i < recs.length,
      (runUpload fails recs db k).1 = applyUpserts db (recs.take i)
      ∧ ((runUpload fails recs db k).2.1 = pureTrace db (recs.take i)
         ∨ (runUpload fails recs db k).2.1 =
             pureTrace db (recs.take i) ++ [StoreOp.find (recs.get ⟨i, h⟩).channel]) := by
  induction recs with
  | nil => intro db k h; simp [runUpload] at h
  | cons rec rest ih =>
    intro db k h
    cases h0 : fails k with
    | true =>
      rw [runUpload_cons_fail0 fails rec rest db k h0] at h ⊢
      exact ⟨0, by simp, rfl, Or.inl rfl⟩
    | false =>
      cases h1 : fails (k + 1) with
      | true =>
        rw [runUpload_cons_abort fails rec rest db k h0 h1] at h ⊢
        exact ⟨0, by simp, rfl, Or.inr rfl⟩
      | false =>
        cases hfind : db.find? (fun x => x.channel == rec.channel) with
        | some r =>
          rw [runUpload_cons_some fails rec rest db k r h0 hfind h1] at h ⊢
          obtain ⟨i, hi, H1, H2⟩ := ih (updateFirst db rec.channel rec.frequency) (k + 2) h
          have hstep : uploadStep db rec = updateFirst db rec.channel rec.frequency := by
            rw [uploadStep, hfind]
          refine ⟨i + 1, by simpa using Nat.succ_lt_succ hi, ?_, ?_⟩
          · rw [List.take_succ_cons, applyUpserts_cons, hstep]
            exact H1
          · rw [List.take_succ_cons,
              pureTrace_cons_some db rec (rest.take i) r hfind, hstep]
            rcases H2 with H2 | H2
            · exact Or.inl (by rw [H2])
            · exact Or.inr (by rw [H2]; rfl)
        | none =>
          rw [runUpload_cons_none fails rec rest db k h0 hfind h1] at h ⊢
          obtain ⟨i, hi, H1, H2⟩ := ih
            (db ++ [{ channel := rec.channel, frequency := rec.frequency }]) (k + 2) h
          have hstep : uploadStep db rec =
              db ++ [{ channel := rec.channel, frequency := rec.frequency }] := by
            rw [uploadStep, hfind]
          refine ⟨i + 1, by simpa using Nat.succ_lt_succ hi, ?_, ?_⟩
          · rw [List.take_succ_cons, applyUpserts_cons, hstep]
            exact H1
          · rw [List.take_succ_cons,
              pureTrace_cons_none db rec (rest.take i) hfind, hstep]
            rcases H2 with H2 | H2
            · exact Or.inl (by rw [H2])
            · exact Or.inr (by rw [H2]; rfl)

/-- C5: if a store operation throws while `uploadData` processes the
records, then for some `i` bounded by the sequence length the store
retains exactly the upserts of the first `i` records (partial progress,
no rollback), the operation trace covers only those records (plus at
most the lone `find` of the failing record when its `update`/`create`
threw), the remaining records are not processed, the error is logged,
and `uploadData` — being total — does not rethrow to its caller. -/
theorem uploadData_failure_partial_progress :
    ∀ (fails : Nat → Bool) (db recs : List ExcelDataRow),
      (runUpload fails recs db 0).2.2 = true →
      (∃ i, ∃ h : i < recs.length,
        (uploadData fails db recs).1 = applyUpserts db (recs.take i)
        ∧ ((uploadData fails db recs).2.1 = pureTrace db (recs.take i)
           ∨ (uploadData fails db recs).2.1 =
               pureTrace db (recs.take i) ++ [StoreOp.find (recs.get ⟨i, h⟩).channel]))
      ∧ (uploadData fails db recs).2.2 = [LogMsg.uploadError] := by
  intro fails db recs h
  obtain ⟨i, hi, H1, H2⟩ := runUpload_failure_aux fails recs db 0 h
  refine ⟨⟨i, hi, H1, H2⟩, ?_⟩
  simp only [uploadData, h, if_true]

theorem uploadData_failure_partial_progress_witness :
    (runUpload (fun k => k == 0) [{ channel := 1, frequency := JSNum.nan }] [] 0).2.2 = true
    ∧ ((∃ i, ∃ h : i < ([{ channel := 1, frequency := JSNum.nan }] :
          List ExcelDataRow).length,
        (uploadData (fun k => k == 0) [] [{ channel := 1, frequency := JSNum.nan }]).1 =
          applyUpserts [] (([{ channel := 1, frequency := JSNum.nan }] :
            List ExcelDataRow).take i)
        ∧ ((uploadData (fun k => k == 0) [] [{ channel := 1, frequency := JSNum.nan }]).2.1 =
              pureTrace [] (([{ channel := 1, frequency := JSNum.nan }] :
                List ExcelDataRow).take i)
           ∨ (uploadData (fun k => k == 0) [] [{ channel := 1, frequency := JSNum.nan }]).2.1 =
              pureTrace [] (([{ channel := 1, frequency := JSNum.nan }] :
                List ExcelDataRow).take i)
              ++ [StoreOp.find (([{ channel := 1, frequency := JSNum.nan }] :
                    List ExcelDataRow).get ⟨i, h⟩).channel]))
       ∧ (uploadData (fun k => k == 0) [] [{ channel := 1, frequency := JSNum.nan }]).2.2 =
           [LogMsg.uploadError]) :=
  ⟨rfl, uploadData_failure_partial_progress (fun k => k == 0) []
    [{ channel := 1, frequency := JSNum.nan }] rfl⟩

end ExcelToDb
